import Mathlib

/-!
Verification of the MDSReader segmented time-series resampling engine
(MARTe2-components, `src/Source/Components/DataSources/MDSReader/MDSReader.h`).

The repository ships only the class declaration (`MDSReader.h`); the method
bodies are not part of the source tree here. The definitions below are
therefore modelled from the specification (`spec.md`) and from the doc
comments of `MDSReader.h`, using exact rational arithmetic in place of
`float64`. Each definition's doc comment records what it models.
-/

namespace MDSReader

/-- Modelled from the spec: a Segment (§3) is a contiguous run of raw samples
for one channel, with a start time and uniform internal sampling period.
Samples are modelled as rationals (the archive's raw bytes reinterpreted as
values of the channel's element type). -/
structure Segment where
  start : ℚ
  period : ℚ
  data : List ℚ
deriving Repr, DecidableEq, Inhabited

/-- Modelled from the spec: the end time of a segment, i.e. the time of its
last sample (`start + (n-1) * period` for `n` samples). -/
def segEnd (s : Segment) : ℚ :=
  s.start + ((s.data.length - 1 : ℕ) : ℚ) * s.period

/-- Modelled from the spec: a Channel (§3) — element count per cycle,
reconstruction policy `dataManagement` (0 raw, 1 linear interpolation,
2 hold last value), hole policy `holeManagement` (0 zero-fill, 1 hold last),
requested per-sample period `samplingTime = 1/frequency/numberOfElements`,
native per-sample period `nodeSamplingTime`, and the archive-resident ordered
segment list. -/
structure Channel where
  numberOfElements : ℕ
  dataManagement : ℕ
  holeManagement : ℕ
  samplingTime : ℚ
  nodeSamplingTime : ℚ
  segments : List Segment
deriving Repr, DecidableEq, Inhabited

/-- Modelled from the spec: the per-channel Cursor (§3) — `lastSegment`
(last segment visited), `elementsConsumed` (offset into the current segment),
`lastValue`/`lastTime` (most recently emitted real sample), `hasLastValue`
(whether any real sample has been observed yet), `endNode` (true once the
archive is exhausted for this channel). -/
structure Cursor where
  lastSegment : ℕ
  elementsConsumed : ℕ
  lastValue : ℚ
  lastTime : ℚ
  hasLastValue : Bool
  endNode : Bool
deriving Repr, DecidableEq, Inhabited

/-- Modelled from the spec: the three outcomes of the Segment Locator
(§4.1, `FindSegment` in `MDSReader.h`): `-1` end of data, `0` not found
(gap), `1` found with the containing segment's index. -/
inductive FindResult where
  | endOfData
  | notFound
  | found (segment : ℕ)
deriving Repr, DecidableEq

/-- Modelled from the spec: the forward scan of `FindSegment` (§4.1).
Starting at absolute segment index `i`, it scans segment bounds in order:
if `t` precedes the current segment it fell in a gap (`notFound`); if `t`
lies within the current segment's bounds it is `found`; past every remaining
segment it is `endOfData`. -/
def findSegmentAux (t : ℚ) : List Segment → ℕ → FindResult
  | [], _ => .endOfData
  | s :: rest, i =>
      if t < s.start then .notFound
      else if t ≤ segEnd s then .found i
      else findSegmentAux t rest (i + 1)

/-- Modelled from the spec: `FindSegment` (§4.1, `MDSReader.h` lines
285–297) — searches forward from the cursor's `lastSegment` only, and on
success updates `lastSegment` to the found index. -/
def FindSegment (ch : Channel) (cur : Cursor) (t : ℚ) : FindResult × Cursor :=
  match findSegmentAux t (ch.segments.drop cur.lastSegment) cur.lastSegment with
  | .found i => (.found i, { cur with lastSegment := i })
  | r => (r, cur)

/-- Modelled from the spec: segments are ordered by start time and
non-overlapping — each segment ends strictly before the next one starts
(§3 "Segments are ordered by start time and may be non-adjacent (gap) or
adjacent"). -/
def SortedSegments (l : List Segment) : Prop :=
  l.Pairwise (fun a b => segEnd a < b.start)

/-- Modelled from the spec: the sequence of `lastSegment` values produced by
successive Segment Locator calls for one channel at the given times (§4.1,
§9: the "never search backward" optimization). -/
def locateTrace (ch : Channel) : Cursor → List ℚ → List ℕ
  | _, [] => []
  | cur, t :: ts =>
      let cur1 := (FindSegment ch cur t).2
      cur1.lastSegment :: locateTrace ch cur1 ts

/-- Concrete fixture: a first archive segment covering times 0..2 at unit
period. -/
def segA : Segment := { start := 0, period := 1, data := [10, 20, 30] }

/-- Concrete fixture: a second archive segment covering times 5..6 at unit
period, separated from `segA` by a gap. -/
def segB : Segment := { start := 5, period := 1, data := [40, 50] }

/-- Concrete fixture: a raw-policy, zero-hole-policy channel over `segA` and
`segB`. -/
def chW : Channel :=
  { numberOfElements := 2, dataManagement := 0, holeManagement := 0,
    samplingTime := 1, nodeSamplingTime := 1, segments := [segA, segB] }

/-- Concrete fixture: a fresh cursor at the start of a session. -/
def curW : Cursor :=
  { lastSegment := 0, elementsConsumed := 0, lastValue := 0, lastTime := 0,
    hasLastValue := false, endNode := false }

/-- Modelled from the spec: the Discontinuity Scanner's gap criterion (§4.2)
— a hole lies between consecutive segments `a` and `b` exactly when `b`
starts later than `a` ends plus one native sampling period `T`. -/
def gapBetween (T : ℚ) (a b : Segment) : Prop := segEnd a + T < b.start

instance (T : ℚ) (a b : Segment) : Decidable (gapBetween T a b) :=
  inferInstanceAs (Decidable (_ < _))

/-- Modelled from the spec: the pairwise walk underlying
`CheckDiscontinuityOfTheSegments` — scans consecutive listed segments and
counts the pairs separated by a hole. -/
def countGapsList (T : ℚ) : List Segment → ℕ
  | a :: b :: rest => (if gapBetween T a b then 1 else 0) + countGapsList T (b :: rest)
  | _ => 0

/-- Modelled from the spec: `CheckDiscontinuityOfTheSegments` (§4.2,
`MDSReader.h` lines 299–308) — counts how many discontinuities lie between
segment `initialSegment` and segment `finalSegment` inclusive. -/
def CheckDiscontinuityOfTheSegments (ch : Channel)
    (initialSegment finalSegment : ℕ) : ℕ :=
  countGapsList ch.nodeSamplingTime
    ((ch.segments.drop initialSegment).take (finalSegment + 1 - initialSegment))

/-- Modelled from the spec: a gap at pair index `j` of a channel's segment
list — segment `j+1` starts later than segment `j` ends plus one native
sampling period. -/
def GapAt (ch : Channel) (j : ℕ) : Prop :=
  gapBetween ch.nodeSamplingTime (ch.segments.getD j default)
    (ch.segments.getD (j + 1) default)

instance (ch : Channel) (j : ℕ) : Decidable (GapAt ch j) :=
  inferInstanceAs (Decidable (gapBetween _ _ _))

/-- Modelled from the spec: `MakeRawCopy` (§4.3 Raw Copy, `MDSReader.h`
lines 390–402) — a direct transfer of the segment's stored samples, starting
at the cursor's `elementsConsumed` offset, of at most `samplesToCopy`
samples, limited by how many samples remain in the segment; the cursor
advances by exactly the count consumed. Returns the produced samples, the
updated cursor, and the number of samples copied. -/
def MakeRawCopy (ch : Channel) (cur : Cursor) (minSeg : ℕ)
    (samplesToCopy : ℕ) : List ℚ × Cursor × ℕ :=
  let s := ch.segments.getD minSeg default
  let remaining := s.data.length - cur.elementsConsumed
  let copied := min samplesToCopy remaining
  ((s.data.drop cur.elementsConsumed).take copied,
   { cur with elementsConsumed := cur.elementsConsumed + copied },
   copied)

/-- Modelled from the spec: `SampleInterpolation` (§4.3 Linear Interpolation,
`MDSReader.h` lines 444–450) — computes
`d1 + (d2 - d1) * (cT - t1) / (t2 - t1)` for an output instant `cT`
bracketed by real samples `(t1, d1)` and `(t2, d2)`; the tie-break branch
returns `d1` directly when `cT` lands exactly on `t1`, with no division
performed. -/
def SampleInterpolation (cT d1 d2 t1 t2 : ℚ) : ℚ :=
  if cT = t1 then d1
  else d1 + (d2 - d1) * (cT - t1) / (t2 - t1)

/-- Modelled from the spec: the filler sample chosen by the Hole Filler
(§4.4, `holeManagement` in `MDSReader.h`): policy 0 fills with zero; policy
1 holds the last known value, falling back to zero when no real sample has
been observed yet. -/
def holeFillValue (holePolicy : ℕ) (cur : Cursor) : ℚ :=
  if holePolicy = 0 then 0
  else if cur.hasLastValue then cur.lastValue else 0

/-- Modelled from the spec: `CopyTheSameValue` (§4.4, `MDSReader.h` lines
321–330) — writes `numberOfTimes` copies of the hole-policy filler sample. -/
def CopyTheSameValue (holePolicy : ℕ) (cur : Cursor) (numberOfTimes : ℕ) :
    List ℚ :=
  List.replicate numberOfTimes (holeFillValue holePolicy cur)

/-- Concrete fixture: a cursor that has observed a real sample of value 5. -/
def curHold : Cursor :=
  { lastSegment := 0, elementsConsumed := 0, lastValue := 5, lastTime := 2,
    hasLastValue := true, endNode := false }

/-- Modelled from the spec: the 10 supported fixed-width element kinds
(`MDSReader.h` class comment). -/
def supportedTypes : List String :=
  ["uint8", "int8", "uint16", "int16", "uint32", "int32",
   "uint64", "int64", "float32", "float64"]

/-- Modelled from the spec: one configured signal — the element type declared
in the configuration file and the archive-native node type
(`mdsNodeTypes`). -/
structure SignalConfig where
  configuredType : String
  mdsType : String
deriving Repr, DecidableEq, Inhabited

/-- Modelled from the spec: `IsValidTypeNode` (`MDSReader.h` lines 256–262)
— the node's type must be one of the supported kinds. -/
def IsValidTypeNode (sc : SignalConfig) : Bool :=
  supportedTypes.contains sc.mdsType

/-- Modelled from the spec: `CheckTypeAgainstMdsNodeTypes` (`MDSReader.h`
lines 263–269) — the configured type must equal the archive-native node
type. -/
def CheckTypeAgainstMdsNodeTypes (sc : SignalConfig) : Bool :=
  sc.configuredType == sc.mdsType

/-- Modelled from the spec: the type validation performed by
`SetConfiguredDatabase` (`MDSReader.h` lines 168–184; §7 "Configuration
errors ... fatal at setup, engine refuses to start"): every signal's
declared type must be supported and must match the archive-native node
type. -/
def SetConfiguredDatabase (sigs : List SignalConfig) : Bool :=
  sigs.all fun sc =>
    supportedTypes.contains sc.configuredType
      && IsValidTypeNode sc && CheckTypeAgainstMdsNodeTypes sc

/-- Modelled from the spec: engine setup — produces a started engine only
when `SetConfiguredDatabase` accepts the configuration; otherwise setup
fails and no partially-initialized engine results. -/
def setupEngine (sigs : List SignalConfig) : Option (List SignalConfig) :=
  if SetConfiguredDatabase sigs then some sigs else none

/-- Concrete fixture: a signal whose declared type disagrees with the
archive-native node type. -/
def sigBad : SignalConfig := { configuredType := "int8", mdsType := "uint8" }

/-- Modelled from the spec: `GetOutputBrokers` (`MDSReader.h` lines 230–236,
doc comment "@return false."): the data source supports input signals only;
no output broker is ever added and the call reports failure. -/
def GetOutputBrokers (outputBrokers : List String) : List String × Bool :=
  (outputBrokers, false)

/-- Modelled from the spec: the index within segment `s` of the nearest
stored sample at or before time `t` (used by the Raw and Hold strategies and
to bracket interpolation, §4.3). -/
def floorIdx (s : Segment) (t : ℚ) : ℕ :=
  (⌊(t - s.start) / s.period⌋).toNat

/-- Modelled from the spec: the reconstructed value a channel's configured
strategy produces at output instant `tk` inside segment `s` (§4.3): Raw
Copy (0) and Hold-Last-Value (2) read the nearest stored sample at or before
`tk`; Linear Interpolation (1) brackets `tk` between the two nearest stored
samples and calls `SampleInterpolation`, degenerating to the last sample at
the segment's edge. -/
def valueAtInstant (ch : Channel) (s : Segment) (tk : ℚ) : ℚ :=
  if ch.dataManagement = 1 then
    let i := floorIdx s tk
    let t1 := s.start + (i : ℚ) * s.period
    if i + 1 < s.data.length then
      SampleInterpolation tk (s.data.getD i 0) (s.data.getD (i + 1) 0) t1
        (t1 + s.period)
    else s.data.getD i 0
  else s.data.getD (floorIdx s tk) 0

/-- Modelled from the spec: the per-instant walk of `GetDataNode` (§4.3
composition, §4.5): for each output instant, the Segment Locator decides
whether the instant lies in a segment (the configured strategy produces the
value and the cursor records it as the last real sample), in a hole (the
Hole Filler produces the value), or past the end of data (the channel enters
the `Ended` state and the rest of the cycle is zero-filled). The third
component counts Segment Locator invocations. -/
def processInstants (ch : Channel) : Cursor → List ℚ → List ℚ × Cursor × ℕ
  | cur, [] => ([], cur, 0)
  | cur, tk :: rest =>
      if cur.endNode then (List.replicate (rest.length + 1) 0, cur, 0)
      else
        match FindSegment ch cur tk with
        | (.endOfData, _) =>
            let r := processInstants ch { cur with endNode := true } rest
            (0 :: r.1, r.2.1, r.2.2 + 1)
        | (.notFound, cur1) =>
            let r := processInstants ch cur1 rest
            (holeFillValue ch.holeManagement cur1 :: r.1, r.2.1, r.2.2 + 1)
        | (.found i, cur1) =>
            let s := ch.segments.getD i default
            let v := valueAtInstant ch s tk
            let cur2 :=
              { cur1 with lastValue := v, lastTime := tk, hasLastValue := true }
            let r := processInstants ch cur2 rest
            (v :: r.1, r.2.1, r.2.2 + 1)

/-- Modelled from the spec: the output instants of one cycle for a channel —
`numberOfElements` instants starting at the cycle time, spaced by the
channel's requested sampling period (§4.6). -/
def cycleInstants (ch : Channel) (t : ℚ) : List ℚ :=
  (List.range ch.numberOfElements).map fun k => t + (k : ℚ) * ch.samplingTime

/-- Modelled from the spec: `GetDataNode` (`MDSReader.h` lines 272–278) —
produces one cycle's worth of data for one channel starting at cycle time
`t`. -/
def GetDataNode (ch : Channel) (t : ℚ) (cur : Cursor) : List ℚ × Cursor × ℕ :=
  processInstants ch cur (cycleInstants ch t)

/-- Modelled from the spec: one channel's handling inside `Synchronise`
(§4.5, §4.6; header: "When a node does not have more data to retrieve the
dataSourceMemory is filled with 0"): a channel whose cursor is already
`Ended` is zero-filled without consulting the Segment Locator and its cursor
is left untouched; otherwise `GetDataNode` runs. -/
def processChannel (ch : Channel) (t : ℚ) (cur : Cursor) :
    List ℚ × Cursor × ℕ :=
  if cur.endNode then (List.replicate ch.numberOfElements 0, cur, 0)
  else GetDataNode ch t cur

/-- Modelled from the spec: `AllNodesEnd` (`MDSReader.h` line 454) — whether
every channel's cursor has reached the `Ended` state. -/
def AllNodesEnd (cursors : List Cursor) : Bool :=
  cursors.all fun cur => cur.endNode

/-- Modelled from the spec: the engine state driven by the Cycle
Orchestrator (§4.6) — the configured channels, their cursors, the cycle
clock and the cycle period. -/
structure EngineState where
  channels : List Channel
  cursors : List Cursor
  currentTime : ℚ
  period : ℚ
deriving Repr, Inhabited

/-- Modelled from the spec: `Synchronise` (§4.6 `runCycle`, `MDSReader.h`
lines 146–151) — processes every channel at the current cycle time, advances
the cycle clock, and returns the per-channel output buffers together with
`continueRunning`, which is false exactly when `AllNodesEnd` holds of the
updated cursors. -/
def Synchronise (st : EngineState) : EngineState × List (List ℚ) × Bool :=
  let results := List.zipWith
    (fun ch cur => processChannel ch st.currentTime cur) st.channels st.cursors
  ({ st with
      cursors := (results.map fun r => r.2.1),
      currentTime := st.currentTime + st.period },
   (results.map fun r => r.1),
   !AllNodesEnd (results.map fun r => r.2.1))

/-- Concrete fixture: a cursor already in the `Ended` state. -/
def curEnded : Cursor :=
  { lastSegment := 1, elementsConsumed := 0, lastValue := 0, lastTime := 0,
    hasLastValue := true, endNode := true }

/-- Concrete fixture: a one-channel engine whose only cursor has ended. -/
def stW : EngineState :=
  { channels := [chW], cursors := [curEnded], currentTime := 0, period := 1 }

/-- The locator never returns an index below its starting index. -/
theorem findSegmentAux_found_ge (t : ℚ) :
    ∀ (l : List Segment) (i j : ℕ), findSegmentAux t l i = .found j → i ≤ j := by
  intro l
  induction l with
  | nil => intro i j h; simp [findSegmentAux] at h
  | cons s rest ih =>
      intro i j h
      simp only [findSegmentAux] at h
      by_cases h1 : t < s.start
      · simp [h1] at h
      · by_cases h2 : t ≤ segEnd s
        · simp [h1, h2] at h
          omega
        · simp [h1, h2] at h
          have := ih (i + 1) j h
          omega

/-- One locator call never decreases the cursor's `lastSegment`. -/
theorem FindSegment_lastSegment_mono (ch : Channel) (cur : Cursor) (t : ℚ) :
    cur.lastSegment ≤ ((FindSegment ch cur t).2).lastSegment := by
  unfold FindSegment
  cases hfs : findSegmentAux t (ch.segments.drop cur.lastSegment) cur.lastSegment with
  | endOfData => simp
  | notFound => simp
  | found i =>
      simp only
      exact findSegmentAux_found_ge t _ _ _ hfs

/-- A segment with positive period starts no later than it ends. -/
theorem start_le_segEnd (s : Segment) (h : 0 < s.period) : s.start ≤ segEnd s := by
  unfold segEnd
  have h1 : (0 : ℚ) ≤ ((s.data.length - 1 : ℕ) : ℚ) * s.period :=
    mul_nonneg (Nat.cast_nonneg _) h.le
  linarith

/-- When `t` is past the end of every listed segment, the scan reports end of
data. -/
theorem findSegmentAux_eq_endOfData (t : ℚ) :
    ∀ (l : List Segment) (b : ℕ), (∀ s ∈ l, segEnd s < t) → (∀ s ∈ l, 0 < s.period) →
      findSegmentAux t l b = .endOfData := by
  intro l
  induction l with
  | nil => intro b _ _; rfl
  | cons s rest ih =>
      intro b hlt hwf
      have h1 : segEnd s < t := hlt s (List.mem_cons_self s rest)
      have h2 : s.start ≤ segEnd s := start_le_segEnd s (hwf s (List.mem_cons_self s rest))
      simp only [findSegmentAux]
      rw [if_neg (by linarith), if_neg (by linarith)]
      exact ih (b + 1) (fun x hx => hlt x (List.mem_cons_of_mem s hx))
        (fun x hx => hwf x (List.mem_cons_of_mem s hx))

/-- When segment `i` of the list contains `t`, the scan started at base `b`
finds absolute index `b + i`. -/
theorem findSegmentAux_eq_found (t : ℚ) :
    ∀ (l : List Segment) (b i : ℕ) (hi : i < l.length),
      SortedSegments l → (∀ s ∈ l, 0 < s.period) →
      (l.get ⟨i, hi⟩).start ≤ t → t ≤ segEnd (l.get ⟨i, hi⟩) →
      findSegmentAux t l b = .found (b + i) := by
  intro l
  induction l with
  | nil => intro b i hi; simp at hi
  | cons s rest ih =>
      intro b i hi hsort hwf hle hge
      cases i with
      | zero =>
          simp only [List.get] at hle hge
          simp only [findSegmentAux]
          rw [if_neg (by linarith), if_pos hge, Nat.add_zero]
      | succ j =>
          have hj : j < rest.length := by simpa using hi
          have htgt : (rest.get ⟨j, hj⟩) ∈ rest := List.get_mem rest j hj
          have hpair : segEnd s < (rest.get ⟨j, hj⟩).start :=
            (List.pairwise_cons.mp hsort).1 _ htgt
          have hs1 : s.start ≤ segEnd s :=
            start_le_segEnd s (hwf s (List.mem_cons_self s rest))
          simp only [List.get] at hle hge
          simp only [findSegmentAux]
          rw [if_neg (by linarith), if_neg (by linarith)]
          have := ih (b + 1) j hj (List.pairwise_cons.mp hsort).2
            (fun x hx => hwf x (List.mem_cons_of_mem s hx)) hle hge
          rw [this]
          congr 1
          omega

/-- When `t` is not past the last segment yet lies in no segment, the scan
reports not found (a gap). -/
theorem findSegmentAux_eq_notFound (t : ℚ) :
    ∀ (l : List Segment) (b : ℕ) (hne : l ≠ []),
      t ≤ segEnd (l.getLast hne) →
      (∀ (i : ℕ) (hi : i < l.length),
        ¬((l.get ⟨i, hi⟩).start ≤ t ∧ t ≤ segEnd (l.get ⟨i, hi⟩))) →
      findSegmentAux t l b = .notFound := by
  intro l
  induction l with
  | nil => intro b hne; exact absurd rfl hne
  | cons s rest ih =>
      intro b hne hlast hnotin
      by_cases h1 : t < s.start
      · simp only [findSegmentAux]
        rw [if_pos h1]
      · have h0 := hnotin 0 (by simp)
        simp only [List.get] at h0
        push_neg at h0
        have h2 : segEnd s < t := h0 (le_of_not_lt h1)
        simp only [findSegmentAux]
        rw [if_neg h1, if_neg (by linarith)]
        rcases eq_or_ne rest [] with hrest | hne2
        · subst hrest
          simp only [List.getLast_singleton] at hlast
          linarith
        · have hlast2 : t ≤ segEnd (rest.getLast hne2) := by
            rwa [List.getLast_cons hne2] at hlast
          have hnotin2 : ∀ (i : ℕ) (hi : i < rest.length),
              ¬((rest.get ⟨i, hi⟩).start ≤ t ∧ t ≤ segEnd (rest.get ⟨i, hi⟩)) := by
            intro i hi
            have := hnotin (i + 1) (by simpa using Nat.succ_lt_succ hi)
            simpa using this
          exact ih (b + 1) hne2 hlast2 hnotin2

/-- In a sorted, well-formed segment list, `t` past the last segment's end is
past every segment's end. -/
theorem all_segEnd_lt (t : ℚ) :
    ∀ (l : List Segment) (hne : l ≠ []),
      SortedSegments l → (∀ s ∈ l, 0 < s.period) →
      segEnd (l.getLast hne) < t → ∀ s ∈ l, segEnd s < t := by
  intro l
  induction l with
  | nil => intro hne; exact absurd rfl hne
  | cons a rest ih =>
      intro hne hsort hwf h x hx
      rcases eq_or_ne rest [] with hrest | hne2
      · subst hrest
        simp only [List.getLast_singleton] at h
        rcases List.mem_singleton.mp hx with rfl
        exact h
      · rw [List.getLast_cons hne2] at h
        rcases List.mem_cons.mp hx with hxa | hx2
        · have hmem := List.getLast_mem hne2
          have hp : segEnd a < (rest.getLast hne2).start :=
            (List.pairwise_cons.mp hsort).1 _ hmem
          have hws := start_le_segEnd (rest.getLast hne2)
            (hwf _ (List.mem_cons_of_mem a hmem))
          rw [hxa]
          linarith
        · exact ih hne2 (List.pairwise_cons.mp hsort).2
            (fun y hy => hwf y (List.mem_cons_of_mem a hy)) h x hx2

/-- The outcome component of `FindSegment` is the forward scan's outcome. -/
theorem FindSegment_fst (ch : Channel) (cur : Cursor) (t : ℚ) :
    (FindSegment ch cur t).1
      = findSegmentAux t (ch.segments.drop cur.lastSegment) cur.lastSegment := by
  unfold FindSegment
  cases hfs : findSegmentAux t (ch.segments.drop cur.lastSegment) cur.lastSegment with
  | endOfData => simp
  | notFound => simp
  | found i => simp

/-- C6: For every channel and every target time `t`, the Segment Locator
`FindSegment` (started at the beginning of a sorted, well-formed segment
list) returns exactly one of three outcomes: `endOfData` (-1) when `t`
exceeds the last segment's end time, `found i` (1) when segment `i` contains
`t`, and `notFound` (0) when `t` falls in a gap that is not yet past the
last segment. -/
theorem FindSegment_trichotomy (ch : Channel) (cur : Cursor) (t : ℚ)
    (hcur : cur.lastSegment = 0)
    (hne : ch.segments ≠ [])
    (hsort : SortedSegments ch.segments)
    (hwf : ∀ s ∈ ch.segments, 0 < s.period) :
    (segEnd (ch.segments.getLast hne) < t → (FindSegment ch cur t).1 = .endOfData)
    ∧ (∀ (i : ℕ) (hi : i < ch.segments.length),
        (ch.segments.get ⟨i, hi⟩).start ≤ t → t ≤ segEnd (ch.segments.get ⟨i, hi⟩) →
        (FindSegment ch cur t).1 = .found i)
    ∧ (t ≤ segEnd (ch.segments.getLast hne) →
        (∀ (i : ℕ) (hi : i < ch.segments.length),
          ¬((ch.segments.get ⟨i, hi⟩).start ≤ t ∧ t ≤ segEnd (ch.segments.get ⟨i, hi⟩))) →
        (FindSegment ch cur t).1 = .notFound) := by
  have hfst : (FindSegment ch cur t).1 = findSegmentAux t ch.segments 0 := by
    rw [FindSegment_fst, hcur, List.drop_zero]
  refine ⟨?_, ?_, ?_⟩
  · intro h
    rw [hfst]
    exact findSegmentAux_eq_endOfData t ch.segments 0
      (all_segEnd_lt t ch.segments hne hsort hwf h) hwf
  · intro i hi hle hge
    rw [hfst]
    have := findSegmentAux_eq_found t ch.segments 0 i hi hsort hwf hle hge
    simpa using this
  · intro h hno
    rw [hfst]
    exact findSegmentAux_eq_notFound t ch.segments 0 hne h hno

/-- Witness for C6: on the concrete two-segment channel, time 6 is found in
segment 1. -/
theorem FindSegment_trichotomy_witness :
    (FindSegment chW curW 6).1 = .found 1 :=
  (FindSegment_trichotomy chW curW 6 rfl (by simp [chW])
    (by norm_num [SortedSegments, chW, segEnd, segA, segB])
    (by norm_num [chW, segA, segB])).2.1 1 (by norm_num [chW])
    (by norm_num [chW, segA, segB]) (by norm_num [chW, segEnd, segA, segB])

/-- C7: For every channel, under the precondition that the times passed to
successive `FindSegment` calls are non-decreasing, the per-channel
`lastSegment` index never decreases across calls: the locator searches
forward from `lastSegment` only and, on success, updates `lastSegment` to
the found index. -/
theorem locateTrace_monotone (ch : Channel) (cur : Cursor) (ts : List ℚ)
    (hmono : ts.Chain' (· ≤ ·)) :
    List.Chain' (· ≤ ·) (cur.lastSegment :: locateTrace ch cur ts) := by
  induction ts generalizing cur with
  | nil => simp [locateTrace]
  | cons t ts ih =>
      simp only [locateTrace]
      rw [List.chain'_cons]
      exact ⟨FindSegment_lastSegment_mono ch cur t, ih _ hmono.tail⟩

/-- Witness for C7: three non-decreasing lookups on the concrete channel
yield a non-decreasing `lastSegment` trace. -/
theorem locateTrace_monotone_witness :
    List.Chain' (· ≤ ·) (curW.lastSegment :: locateTrace chW curW [0, 1, 6]) :=
  locateTrace_monotone chW curW [0, 1, 6] (by norm_num [List.chain'_cons])

/-- The pairwise scan equals the count of gap-separated pair indices. -/
theorem countGapsList_eq_countP (T : ℚ) :
    ∀ l : List Segment,
      countGapsList T l
        = (List.range (l.length - 1)).countP
            (fun j => decide (gapBetween T (l.getD j default) (l.getD (j + 1) default))) := by
  intro l
  induction l with
  | nil => rfl
  | cons a tail ih =>
      cases tail with
      | nil => rfl
      | cons b rest =>
          have hlen : (a :: b :: rest).length - 1 = rest.length + 1 := by simp
          rw [hlen, List.range_succ_eq_map, List.countP_cons, List.countP_map]
          have h2 : countGapsList T (a :: b :: rest)
              = (if gapBetween T a b then 1 else 0) + countGapsList T (b :: rest) := rfl
          rw [h2, ih]
          have h3 : (b :: rest).length - 1 = rest.length := by simp
          rw [h3]
          have hc : ∀ j ∈ List.range rest.length,
              (((fun j => decide (gapBetween T ((a :: b :: rest).getD j default)
                  ((a :: b :: rest).getD (j + 1) default))) ∘ Nat.succ) j = true
                ↔ (fun j => decide (gapBetween T ((b :: rest).getD j default)
                  ((b :: rest).getD (j + 1) default))) j = true) := by
            intro j hj
            simp [Function.comp, List.getD_cons_succ]
          rw [List.countP_congr hc]
          by_cases hg : gapBetween T a b
          · simp [hg, List.getD_cons_zero, List.getD_cons_succ, Nat.add_comm]
          · simp [hg, List.getD_cons_zero, List.getD_cons_succ]

/-- Counting over a filtered `Finset.range` is counting over `List.range`. -/
theorem card_filter_range_eq_countP (n : ℕ) (p : ℕ → Prop) [DecidablePred p] :
    ((Finset.range n).filter p).card = (List.range n).countP (fun a => decide (p a)) := by
  rw [List.countP_eq_length_filter]
  rfl

/-- Counting over `Finset.Ico i f` is counting over a shifted range. -/
theorem card_filter_Ico_shift (i f : ℕ) (p : ℕ → Prop) [DecidablePred p] (h : i ≤ f) :
    ((Finset.Ico i f).filter p).card
      = ((Finset.range (f - i)).filter (fun j => p (i + j))).card := by
  have h1 : Finset.Ico i f = (Finset.range (f - i)).map (addLeftEmbedding i) := by
    rw [Finset.range_eq_Ico, Finset.map_add_left_Ico]
    congr 1
    omega
  rw [h1, Finset.filter_map, Finset.card_map]
  rfl

/-- Elements of the scanned sub-run are elements of the full segment list. -/
theorem scanned_getD (l : List Segment) (i n j : ℕ) (h : j < n) :
    ((l.drop i).take n).getD j default = l.getD (i + j) default := by
  simp [List.getD_eq_getD_get?, List.getElem?_take_of_lt h, List.getElem?_drop]

/-- C5: For every channel and every segment range `[initialSegment,
finalSegment]`, `CheckDiscontinuityOfTheSegments` returns exactly the number
of pair indices `j` in the range at which a gap exists — where a gap exists
between consecutive segments `j` and `j+1` precisely when segment `j+1`'s
start time is later than segment `j`'s end time plus one native sampling
period — and for a contiguous range it returns 0. -/
theorem CheckDiscontinuity_counts (ch : Channel) (i f : ℕ)
    (hif : i ≤ f) (hf : f < ch.segments.length) :
    CheckDiscontinuityOfTheSegments ch i f
        = ((Finset.Ico i f).filter (fun j => GapAt ch j)).card
    ∧ ((∀ j ∈ Finset.Ico i f, ¬ GapAt ch j) →
        CheckDiscontinuityOfTheSegments ch i f = 0) := by
  have hlen : ((ch.segments.drop i).take (f + 1 - i)).length = f + 1 - i := by
    simp
    omega
  have hmain : CheckDiscontinuityOfTheSegments ch i f
      = ((Finset.Ico i f).filter (fun j => GapAt ch j)).card := by
    unfold CheckDiscontinuityOfTheSegments
    rw [countGapsList_eq_countP, hlen]
    have hsub : f + 1 - i - 1 = f - i := by omega
    rw [hsub, card_filter_Ico_shift i f _ hif, card_filter_range_eq_countP]
    apply List.countP_congr
    intro j hj
    have hj1 : j < f - i := List.mem_range.mp hj
    rw [scanned_getD ch.segments i _ j (by omega),
      scanned_getD ch.segments i _ (j + 1) (by omega)]
    unfold GapAt
    constructor
    · intro hx
      simpa [Nat.add_assoc] using hx
    · intro hx
      simpa [Nat.add_assoc] using hx
  refine ⟨hmain, fun hno => ?_⟩
  rw [hmain, Finset.card_eq_zero, Finset.filter_eq_empty_iff]
  exact hno

/-- Witness for C5: on the concrete two-segment channel there is exactly one
gap between segments 0 and 1. -/
theorem CheckDiscontinuity_counts_witness :
    CheckDiscontinuityOfTheSegments chW 0 1
        = ((Finset.Ico 0 1).filter (fun j => GapAt chW j)).card :=
  (CheckDiscontinuity_counts chW 0 1 (by norm_num) (by norm_num [chW])).1

/-- Indexing into a take-of-drop window reads the underlying list. -/
theorem getD_take_drop {α : Type} (l : List α) (c n k : ℕ) (h : k < n) (d : α) :
    ((l.drop c).take n).getD k d = l.getD (c + k) d := by
  simp [List.getD_eq_getD_get?, List.getElem?_take_of_lt h, List.getElem?_drop]

/-- C2: For every channel with Raw Copy policy whose requested rate equals
the native rate, `MakeRawCopy` writes into the output exactly the literal
archive samples of the requested window (sample-for-sample identity with the
segment's stored data), advances the cursor by exactly the count consumed,
and returns fewer samples than requested exactly when the underlying segment
does not hold enough remaining samples. -/
theorem MakeRawCopy_identity (ch : Channel) (cur : Cursor)
    (minSeg samplesToCopy : ℕ)
    (hraw : ch.dataManagement = 0)
    (hrate : ch.samplingTime = ch.nodeSamplingTime) :
    (MakeRawCopy ch cur minSeg samplesToCopy).1.length
        = (MakeRawCopy ch cur minSeg samplesToCopy).2.2
    ∧ (∀ k, k < (MakeRawCopy ch cur minSeg samplesToCopy).2.2 →
        (MakeRawCopy ch cur minSeg samplesToCopy).1.getD k 0
          = (ch.segments.getD minSeg default).data.getD
              (cur.elementsConsumed + k) 0)
    ∧ (MakeRawCopy ch cur minSeg samplesToCopy).2.1.elementsConsumed
        = cur.elementsConsumed + (MakeRawCopy ch cur minSeg samplesToCopy).2.2
    ∧ ((MakeRawCopy ch cur minSeg samplesToCopy).2.2 < samplesToCopy ↔
        (ch.segments.getD minSeg default).data.length - cur.elementsConsumed
          < samplesToCopy) := by
  refine ⟨?_, ?_, ?_, ?_⟩
  · simp only [MakeRawCopy, List.length_take, List.length_drop]
    omega
  · intro k hk
    simp only [MakeRawCopy] at hk ⊢
    exact getD_take_drop (ch.segments.getD minSeg default).data
      cur.elementsConsumed _ k hk 0
  · simp [MakeRawCopy]
  · simp only [MakeRawCopy]
    omega

/-- Witness for C2: the second sample copied from the concrete channel's
first segment is the second stored archive sample. -/
theorem MakeRawCopy_identity_witness :
    (MakeRawCopy chW curW 0 2).1.getD 1 0
      = (chW.segments.getD 0 default).data.getD (curW.elementsConsumed + 1) 0 :=
  (MakeRawCopy_identity chW curW 0 2 rfl rfl).2.1 1
    (by norm_num [MakeRawCopy, chW, curW, segA])

/-- C3: For every output time instant bracketed by real samples `(t1, d1)`
and `(t2, d2)`, `SampleInterpolation` produces
`d1 + (d2 - d1) * (cT - t1) / (t2 - t1)`; in the tie-break case `cT = t1` it
produces exactly `d1` whatever `t2` is — in particular even when `t2 = t1`,
where the division would be undefined — so interpolation is idempotent at
sample boundaries. -/
theorem SampleInterpolation_spec (cT d1 d2 t1 t2 : ℚ)
    (hbr : t1 ≤ cT ∧ cT ≤ t2) :
    SampleInterpolation cT d1 d2 t1 t2
        = d1 + (d2 - d1) * (cT - t1) / (t2 - t1)
    ∧ (∀ u : ℚ, SampleInterpolation t1 d1 d2 t1 u = d1) := by
  constructor
  · unfold SampleInterpolation
    by_cases h : cT = t1
    · subst h
      simp
    · rw [if_neg h]
  · intro u
    unfold SampleInterpolation
    rw [if_pos rfl]

/-- Witness for C3: interpolation halfway between `(0, 3)` and `(1, 5)`
equals the bracketing formula's value. -/
theorem SampleInterpolation_spec_witness :
    SampleInterpolation (1 / 2) 3 5 0 1
      = 3 + (5 - 3) * (1 / 2 - 0) / (1 - 0) :=
  (SampleInterpolation_spec (1 / 2) 3 5 0 1 (by norm_num)).1

/-- C4: For every channel and every gap filled by the Hole Filler, with the
Zero hole policy every filler sample written equals zero; with the Hold hole
policy every filler sample equals the last real sample observed before the
gap, and if no real sample has ever been observed every filler sample equals
zero. -/
theorem CopyTheSameValue_spec (holePolicy : ℕ) (cur : Cursor) (n : ℕ) (v : ℚ)
    (hv : v ∈ CopyTheSameValue holePolicy cur n) :
    (holePolicy = 0 → v = 0)
    ∧ (holePolicy ≠ 0 → cur.hasLastValue = true → v = cur.lastValue)
    ∧ (holePolicy ≠ 0 → cur.hasLastValue = false → v = 0) := by
  have hrep := List.eq_of_mem_replicate hv
  subst hrep
  refine ⟨fun h0 => ?_, fun h1 h2 => ?_, fun h1 h2 => ?_⟩
  · simp [holeFillValue, h0]
  · simp [holeFillValue, h1, h2]
  · simp [holeFillValue, h1, h2]

/-- Witness for C4: with the Hold policy, a filler sample drawn from a
cursor that has observed the value 5 equals 5. -/
theorem CopyTheSameValue_spec_witness : (5 : ℚ) = curHold.lastValue :=
  (CopyTheSameValue_spec 1 curHold 2 5
    (by norm_num [CopyTheSameValue, holeFillValue, curHold,
      List.mem_replicate])).2.1 (by norm_num) rfl

/-- C9: For every configuration in which some channel's declared element
type is not one of the 10 supported fixed-width kinds, or differs from the
archive-native node type, `SetConfiguredDatabase` returns false and setup
produces no engine: the engine refuses to start and no partially-initialized
engine results. -/
theorem SetConfiguredDatabase_rejects (sigs : List SignalConfig)
    (sc : SignalConfig) (hmem : sc ∈ sigs)
    (hbad : supportedTypes.contains sc.configuredType = false
        ∨ sc.configuredType ≠ sc.mdsType) :
    SetConfiguredDatabase sigs = false ∧ setupEngine sigs = none := by
  have h1 : SetConfiguredDatabase sigs = false := by
    unfold SetConfiguredDatabase
    rw [List.all_eq_false]
    refine ⟨sc, hmem, ?_⟩
    rcases hbad with hb | hb
    · have hnotmem : sc.configuredType ∉ supportedTypes := by simpa using hb
      simp [hnotmem]
    · simp [CheckTypeAgainstMdsNodeTypes, hb]
  exact ⟨h1, by simp [setupEngine, h1]⟩

/-- Witness for C9: a configuration declaring `int8` against an archive
node of type `uint8` is rejected and yields no engine. -/
theorem SetConfiguredDatabase_rejects_witness :
    SetConfiguredDatabase [sigBad] = false ∧ setupEngine [sigBad] = none :=
  SetConfiguredDatabase_rejects [sigBad] sigBad (by simp)
    (Or.inr (by simp [sigBad]))

/-- C10: For every call, regardless of arguments, `GetOutputBrokers` returns
false and adds nothing to the output-broker container: the data source
supports input signals only. -/
theorem GetOutputBrokers_rejects (outputBrokers : List String) :
    GetOutputBrokers outputBrokers = (outputBrokers, false) := rfl

/-- C1: For every configured channel set, the cycle entry point `Synchronise`
returns `continueRunning = false` if and only if every channel's cursor has
reached the `Ended` state after the cycle — a single non-`Ended` channel
keeps it returning true — and every channel whose cursor had already ended
is zero-filled, so the session ends only when the last remaining stream is
exhausted. -/
theorem Synchronise_continue_iff (st : EngineState)
    (hlen : st.channels.length = st.cursors.length) :
    ((Synchronise st).2.2 = false ↔
        ∀ cur ∈ (Synchronise st).1.cursors, cur.endNode = true)
    ∧ (∀ i, i < st.cursors.length →
        (st.cursors.getD i default).endNode = true →
        (Synchronise st).2.1.getD i []
          = List.replicate ((st.channels.getD i default).numberOfElements) 0) := by
  constructor
  · have h1 : (Synchronise st).2.2
        = !AllNodesEnd ((List.zipWith
            (fun ch cur => processChannel ch st.currentTime cur)
            st.channels st.cursors).map fun r => r.2.1) := rfl
    have h2 : (Synchronise st).1.cursors
        = (List.zipWith (fun ch cur => processChannel ch st.currentTime cur)
            st.channels st.cursors).map fun r => r.2.1 := rfl
    rw [h1, h2]
    simp [AllNodesEnd, List.all_eq_true]
  · intro i hi hend
    have hi1 : i < st.channels.length := by omega
    have hires : i < ((List.zipWith
        (fun ch cur => processChannel ch st.currentTime cur)
        st.channels st.cursors).map fun r => r.1).length := by
      simp [List.length_zipWith]
      omega
    have h3 : (Synchronise st).2.1
        = (List.zipWith (fun ch cur => processChannel ch st.currentTime cur)
            st.channels st.cursors).map fun r => r.1 := rfl
    rw [h3, List.getD_eq_getElem _ _ hires, List.getElem_map,
      List.getElem_zipWith]
    have hendi : (st.cursors.getD i default).endNode = true := hend
    rw [List.getD_eq_getElem st.cursors default hi] at hendi
    rw [List.getD_eq_getElem _ _ hi1]
    simp [processChannel, hendi]

/-- Witness for C1: the one-channel engine whose only cursor has ended stops
— `Synchronise` returns false. -/
theorem Synchronise_continue_iff_witness : (Synchronise stW).2.2 = false :=
  (Synchronise_continue_iff stW rfl).1.mpr
    (by simp [Synchronise, stW, processChannel, curEnded, chW])

/-- C8: For every channel, once its cursor is in the `Ended` state the cycle
step is a pure no-op: the output buffer region is written all zeros, the
cursor is returned unchanged (so the channel never leaves `Ended`), the
Segment Locator is invoked zero times, and the channel's buffer slot keeps
its configured size so downstream layout remains stable. -/
theorem processChannel_ended (ch : Channel) (t : ℚ) (cur : Cursor)
    (hend : cur.endNode = true) :
    processChannel ch t cur = (List.replicate ch.numberOfElements 0, cur, 0)
    ∧ (processChannel ch t cur).2.1.endNode = true
    ∧ (processChannel ch t cur).1.length = ch.numberOfElements := by
  have h1 : processChannel ch t cur
      = (List.replicate ch.numberOfElements 0, cur, 0) := by
    simp [processChannel, hend]
  exact ⟨h1, by rw [h1]; exact hend, by rw [h1]; simp⟩

/-- Witness for C8: the concrete ended cursor's cycle step is the zero-fill
no-op. -/
theorem processChannel_ended_witness :
    processChannel chW 0 curEnded
        = (List.replicate chW.numberOfElements 0, curEnded, 0)
    ∧ (processChannel chW 0 curEnded).2.1.endNode = true
    ∧ (processChannel chW 0 curEnded).1.length = chW.numberOfElements :=
  processChannel_ended chW 0 curEnded rfl

end MDSReader
